import Mathlib

/-!
Shallow embedding of `synapse/storage/e2e_room_keys.py` (class `EndToEndRoomKeyStore`).

Modelling conventions:
* The two SQL tables `e2e_room_keys_versions` and `e2e_room_keys` are lists of rows
  inside a `Store`; a row insert conses onto (or appends to) the list.
* The `version` columns are integer-typed (spec section 6 documents the persisted
  shape; the table schemas are not part of the supplied sources).  Python passes
  version identifiers around as strings; a comparison of the integer column with
  a string parameter succeeds exactly when the string parses as that integer
  (SQL numeric coercion), which we model with `strToInt?`.  Python
  `int(version)` is likewise modelled with `strToInt?` (`ValueError` when it
  returns `none`).
* `json.dumps`/`json.loads` round-trip an opaque payload, so payloads
  (`auth_data`, `session_data`) are modelled as opaque strings and the dump/load
  round trip as the identity.
* Failures (Python exceptions, `StoreError`, SQL errors) are modelled with
  `Except PyErr`; a failed transaction leaves the store unchanged.
-/

inductive PyErr where
  | valueError
  | storeError (code : Nat) (msg : String)
  | sqlError (msg : String)
deriving DecidableEq

/-- One encrypted room-key record: the four non-key columns of `e2e_room_keys`
(the `room_key` dict of the Python code). -/
structure RoomKey where
  first_message_index : Int
  forwarded_count : Int
  is_verified : Bool
  session_data : String
deriving DecidableEq

/-- One row of the `e2e_room_keys` table. -/
structure KeyRow where
  user_id : String
  version : Int
  room_id : String
  session_id : String
  key : RoomKey
deriving DecidableEq

/-- One row of the `e2e_room_keys_versions` table.  `hash` is nullable (NULL on
insert by `create_e2e_room_keys_version`); `deleted` defaults to false (spec
section 6). -/
structure VersionRow where
  user_id : String
  version : Int
  algorithm : String
  auth_data : String
  hash : Option Int
  deleted : Bool
deriving DecidableEq

structure Store where
  versions : List VersionRow
  keys : List KeyRow
deriving DecidableEq

def emptyStore : Store := { versions := [], keys := [] }

def digit? (c : Char) : Option Nat :=
  if 48 ≤ c.toNat ∧ c.toNat ≤ 57 then some (c.toNat - 48) else none

def parseNatAux : List Char → Nat → Option Nat
  | [], n => some n
  | c :: rest, n =>
    match digit? c with
    | some d => parseNatAux rest (n * 10 + d)
    | none => none

/-- Decimal integer parsing, an optional leading minus sign followed by at
least one digit: the model both of Python `int(...)` (which raises
`ValueError` exactly when this returns `none`) and of comparing the integer
`version` column against a string parameter (SQL numeric coercion, which
matches exactly the rows holding the parsed value). -/
def strToInt? (s : String) : Option Int :=
  match s.data with
  | [] => none
  | '-' :: [] => none
  | '-' :: c :: rest => (parseNatAux (c :: rest) 0).map fun n => -(n : Int)
  | l => (parseNatAux l 0).map fun n => (n : Int)

/-- The `info` dict accepted by `create_e2e_room_keys_version`. -/
structure NewVersionInfo where
  algorithm : String
  auth_data : String
deriving DecidableEq

/-- The partial `info` dict accepted by `update_e2e_room_keys_version`:
each field may be present or absent. -/
structure UpdateVersionInfo where
  auth_data : Option String
  hash : Option Int
deriving DecidableEq

/-- The result dict of `get_e2e_room_keys_version_info`: `version` stringified,
`auth_data` loaded, `hash` defaulted to 0 when NULL (Python: falsy). -/
structure VersionInfoRes where
  version : String
  algorithm : String
  auth_data : String
  hash : Int
deriving DecidableEq

def mkVersionInfoRes (r : VersionRow) : VersionInfoRes :=
  { version := toString r.version
    algorithm := r.algorithm
    auth_data := r.auth_data
    hash := r.hash.getD 0 }

/-- SQL `MAX(...)` over a list of integers: NULL (`none`) on the empty list. -/
def maxOpt : List Int → Option Int
  | [] => none
  | v :: vs =>
    match maxOpt vs with
    | none => some v
    | some m => some (max v m)

/-- The versions (deleted or not) assigned to a user, as read by
`SELECT MAX(version) FROM e2e_room_keys_versions WHERE user_id=?`. -/
def userVersionsL (l : List VersionRow) (u : String) : List Int :=
  (l.filter fun r => r.user_id == u).map (fun r => r.version)

/-- The non-deleted versions of a user, as read by
`SELECT MAX(version) ... WHERE user_id=? AND deleted=0`. -/
def userNonDeletedL (l : List VersionRow) (u : String) : List Int :=
  (l.filter fun r => r.user_id == u && r.deleted == false).map (fun r => r.version)

/-- The `current_version` value computed by `create_e2e_room_keys_version`
before incrementing: `MAX(version)` over all rows of the user, with NULL read
as "0". -/
def curAllL (l : List VersionRow) (u : String) : Int :=
  (maxOpt (userVersionsL l u)).getD 0

/-- Python truthiness of an optional string argument: `None` and `""` are falsy. -/
def truthyS : Option String → Bool
  | none => false
  | some x => !(x == "")

/-- The `keyvalues` filter built by `get_e2e_room_keys` / `delete_e2e_room_keys`:
always `user_id` and `version`; `room_id` added only if truthy, and
`session_id` added only if truthy and `room_id` was added. -/
def keyCond (user_id : String) (v : Int) (room_id session_id : Option String)
    (k : KeyRow) : Bool :=
  k.user_id == user_id && k.version == v &&
    (if truthyS room_id then
        k.room_id == room_id.getD "" &&
          (if truthyS session_id then k.session_id == session_id.getD "" else true)
      else true)

/-- `get_e2e_room_keys`: `int(version)` failing returns the empty result
(the rooms dict is empty) instead of failing; otherwise selects the matching rows.
The Python code then groups the selected rows into a `rooms` → `sessions` dict;
we return the selected row list, which determines that grouping. -/
def get_e2e_room_keys (s : Store) (user_id version : String)
    (room_id session_id : Option String) : List KeyRow :=
  match strToInt? version with
  | none => []
  | some v => s.keys.filter (keyCond user_id v room_id session_id)

/-- The grouping of selected rows into the nested result dict: repeated
assignment into the dict makes the last row for a `(room, session)` pair win. -/
def lookupSession (rows : List KeyRow) (room_id session_id : String) :
    Option RoomKey :=
  ((rows.filter fun k => k.room_id == room_id && k.session_id == session_id).map
    (fun k => k.key)).getLast?

/-- `_get_e2e_room_keys_multi_txn`: empty `room_keys` short-circuits to `{}`;
rooms with an empty session list are skipped when building the OR-combined
WHERE clauses.  If `room_keys` is non-empty but every session list is empty,
the clause list is empty and the generated SQL ends in `AND ()`, which is
malformed, so the query fails.  The `version` parameter is passed to SQL
unconverted; the integer column matches it iff it parses (`strToInt?`). -/
def get_e2e_room_keys_multi (s : Store) (user_id version : String)
    (room_keys : List (String × List String)) : Except PyErr (List KeyRow) :=
  if room_keys.length == 0 then .ok []
  else
    let clauses := room_keys.filter fun rc => !(rc.2.length == 0)
    if clauses.length == 0 then
      .error (.sqlError "malformed WHERE clause: empty OR list")
    else
      .ok (s.keys.filter fun k =>
        k.user_id == user_id && some k.version == strToInt? version &&
          clauses.any fun rc => k.room_id == rc.1 && rc.2.contains k.session_id)

/-- `delete_e2e_room_keys`: `int(version)` raises `ValueError` (uncaught) on a
non-integer version; otherwise deletes the rows matching the hierarchical
filter. -/
def delete_e2e_room_keys (s : Store) (user_id version : String)
    (room_id session_id : Option String) : Except PyErr Store :=
  match strToInt? version with
  | none => .error .valueError
  | some v =>
    .ok { s with keys := s.keys.filter fun k => !(keyCond user_id v room_id session_id k) }

/-- `_get_current_version`: `SELECT MAX(version) ... WHERE user_id=? AND deleted=0`.
The aggregate query always yields exactly one row (holding NULL when no row
matches), so `fetchone()` never returns a falsy value and the
`raise StoreError(404)` branch of the Python code is dead; the function yields
the maximum non-deleted version, or NULL (`none`). -/
def _get_current_version (s : Store) (user_id : String) : Option Int :=
  maxOpt (userNonDeletedL s.versions user_id)

/-- Modelled from the spec: `_simple_select_one_txn` lives in the storage base
class, which is not among the supplied sources.  Per spec sections 4.1 and 7 it
returns the (first) matching row and fails with NotFound (404) when no row
matches.  A NULL `this_version` keyvalue matches no row. -/
def selectVersionRow (s : Store) (user_id : String) (this_version : Option Int) :
    Except PyErr VersionInfoRes :=
  match (s.versions.filter fun r =>
      r.user_id == user_id && some r.version == this_version && r.deleted == false).head? with
  | none => .error (.storeError 404 "No row found")
  | some r => .ok (mkVersionInfoRes r)

/-- `get_e2e_room_keys_version_info`: an omitted version resolves via
`_get_current_version`; a given version must parse as an integer
(else 404); then one row with `deleted = 0` is selected. -/
def get_e2e_room_keys_version_info (s : Store) (user_id : String)
    (version : Option String) : Except PyErr VersionInfoRes :=
  match version with
  | none => selectVersionRow s user_id (_get_current_version s user_id)
  | some v =>
    match strToInt? v with
    | none => .error (.storeError 404 "No row found")
    | some n => selectVersionRow s user_id (some n)

/-- `create_e2e_room_keys_version`: reads `MAX(version)` over all of the
rows (deleted or not), treats NULL as "0", inserts a row at `max + 1` with
NULL `hash` and default `deleted = false`, and returns the new version as a
string. -/
def create_e2e_room_keys_version (s : Store) (user_id : String)
    (info : NewVersionInfo) : Store × String :=
  let current_version : Int := (maxOpt (userVersionsL s.versions user_id)).getD 0
  let new_version : Int := current_version + 1
  ({ s with versions :=
      { user_id := user_id
        version := new_version
        algorithm := info.algorithm
        auth_data := info.auth_data
        hash := none
        deleted := false } :: s.versions },
   toString new_version)

/-- The `keyvalues` row filter `(user_id, version)` used by the
version-metadata update and delete; `this_version` is the (possibly NULL)
value the integer `version` column is compared against. -/
def versionKeyMatch (user_id : String) (this_version : Option Int)
    (r : VersionRow) : Bool :=
  r.user_id == user_id && some r.version == this_version

/-- The row transformation of `update_e2e_room_keys_version`: set each field
present in `info`, keep the rest. -/
def applyVersionUpdate (info : UpdateVersionInfo) (r : VersionRow) : VersionRow :=
  { r with
    auth_data := info.auth_data.getD r.auth_data
    hash := match info.hash with | none => r.hash | some h => some h }

/-- `update_e2e_room_keys_version`: builds `updatevalues` from the fields
present in `info` and updates the rows keyed by `(user_id, version)`.
Modelled from the spec: `_simple_update` lives in the storage base class, which
is not among the supplied sources; per spec sections 4.1 and 7 the update fails
with NotFound when the `(user, version)` row does not exist. -/
def update_e2e_room_keys_version (s : Store) (user_id version : String)
    (info : UpdateVersionInfo) : Except PyErr Store :=
  if (s.versions.filter (versionKeyMatch user_id (strToInt? version))).length == 0 then
    .error (.storeError 404 "No row found")
  else
    .ok { s with versions := s.versions.map fun r =>
      if (versionKeyMatch user_id (strToInt? version) r) then applyVersionUpdate info r
      else r }

/-- `delete_e2e_room_keys_version`: an omitted version resolves via
`_get_current_version` (NULL matches no row); a given version is passed to the
keyvalues unconverted (integer-column coercion).  Modelled from the spec:
`_simple_update_one_txn` lives in the storage base class, which is not among
the supplied sources; per spec sections 4.1 and 7 it requires exactly one row
to match, failing with NotFound (404) on zero rows (and a server error on
more than one).  The update sets `deleted = 1` only. -/
def delTarget (s : Store) (user_id : String) (version : Option String) : Option Int :=
  match version with
  | none => _get_current_version s user_id
  | some v => strToInt? v

def delete_e2e_room_keys_version (s : Store) (user_id : String)
    (version : Option String) : Except PyErr Store :=
  match (s.versions.filter (versionKeyMatch user_id (delTarget s user_id version))).length with
  | 0 => .error (.storeError 404 "No row found")
  | 1 => .ok { s with versions := s.versions.map fun r =>
      if (versionKeyMatch user_id (delTarget s user_id version) r) then
        { r with deleted := true }
      else r }
  | _ => .error (.storeError 500 "More than one row matched")

/-- The compound key of an `e2e_room_keys` row. -/
def keyId (k : KeyRow) : String × Int × String × String :=
  (k.user_id, k.version, k.room_id, k.session_id)

/-- `add_e2e_room_keys`: inserts all entries in one transaction.  Modelled from
the spec: `_simple_insert_many` lives in the storage base class, which is not
among the supplied sources; per spec sections 4.2 and 6 the `version` column is
integer-typed and a primary-key collision (against prior rows or within the
batch) surfaces as a Conflict error from the persistence engine. -/
def mkKeyRows (user_id : String) (v : Int)
    (entries : List (String × String × RoomKey)) : List KeyRow :=
  entries.map fun e =>
    { user_id := user_id, version := v, room_id := e.1,
      session_id := e.2.1, key := e.2.2 }

def add_e2e_room_keys (s : Store) (user_id version : String)
    (entries : List (String × String × RoomKey)) : Except PyErr Store :=
  match strToInt? version with
  | none => .error .valueError
  | some v =>
    if ((s.keys ++ mkKeyRows user_id v entries).map keyId).Nodup then
      .ok { s with keys := s.keys ++ mkKeyRows user_id v entries }
    else
      .error (.storeError 409 "Conflict")

/-- `update_e2e_room_key`: keyed update of one key record.  Modelled from the
spec: `_simple_update_one` lives in the storage base class, which is not among
the supplied sources; per spec section 4.2 exactly one existing row must match,
else the update fails. -/
def keyRowMatch (user_id : String) (tv : Option Int) (room_id session_id : String)
    (k : KeyRow) : Bool :=
  k.user_id == user_id && some k.version == tv &&
    k.room_id == room_id && k.session_id == session_id

def update_e2e_room_key (s : Store) (user_id version room_id session_id : String)
    (room_key : RoomKey) : Except PyErr Store :=
  match (s.keys.filter (keyRowMatch user_id (strToInt? version) room_id session_id)).length with
  | 0 => .error (.storeError 404 "No row found")
  | 1 => .ok { s with keys := s.keys.map fun k =>
      if (keyRowMatch user_id (strToInt? version) room_id session_id k) then
        { k with key := room_key }
      else k }
  | _ => .error (.storeError 500 "More than one row matched")

/-- One mutating operation of the subsystem (the read-only operations do not
change the store). -/
inductive Op where
  | createV (user : String) (info : NewVersionInfo)
  | deleteV (user : String) (version : Option String)
  | updateV (user : String) (version : String) (info : UpdateVersionInfo)
  | addKeys (user : String) (version : String) (entries : List (String × String × RoomKey))
  | updateK (user : String) (version : String) (room : String) (sess : String) (key : RoomKey)
  | deleteK (user : String) (version : String) (room : Option String) (sess : Option String)

/-- Run one operation; a failed transaction rolls back (store unchanged). -/
def applyOp (s : Store) : Op → Store
  | .createV u info => (create_e2e_room_keys_version s u info).1
  | .deleteV u v =>
    match delete_e2e_room_keys_version s u v with
    | .ok s' => s'
    | .error _ => s
  | .updateV u v info =>
    match update_e2e_room_keys_version s u v info with
    | .ok s' => s'
    | .error _ => s
  | .addKeys u v entries =>
    match add_e2e_room_keys s u v entries with
    | .ok s' => s'
    | .error _ => s
  | .updateK u v r sess key =>
    match update_e2e_room_key s u v r sess key with
    | .ok s' => s'
    | .error _ => s
  | .deleteK u v r sess =>
    match delete_e2e_room_keys s u v r sess with
    | .ok s' => s'
    | .error _ => s

def runOps (s : Store) : List Op → Store
  | [] => s
  | op :: rest => runOps (applyOp s op) rest

/-- The version strings returned by the `createV` calls for user `u` while
running `ops` from `s`, in call order. -/
def createOutputs (s : Store) (ops : List Op) (u : String) : List String :=
  match ops with
  | [] => []
  | op :: rest =>
    let outs := createOutputs (applyOp s op) rest u
    match op with
    | .createV u' info =>
      if u' == u then (create_e2e_room_keys_version s u' info).2 :: outs else outs
    | _ => outs

def countCreates (ops : List Op) (u : String) : Nat :=
  ops.countP fun op =>
    match op with
    | .createV u' _ => u' == u
    | _ => false

/-- States reachable from the empty store by the operations of the subsystem. -/
inductive Reach : Store → Prop where
  | empty : Reach emptyStore
  | step (s : Store) (op : Op) : Reach s → Reach (applyOp s op)

def pairOf (r : VersionRow) : String × Int := (r.user_id, r.version)

/-- Per-user version numbers are pairwise distinct (never reused). -/
def VersionPairsNodup (s : Store) : Prop := (s.versions.map pairOf).Nodup

/-- The compound key of `e2e_room_keys` is unique (primary-key invariant). -/
def KeysNodup (s : Store) : Prop := (s.keys.map keyId).Nodup

instance : DecidablePred VersionPairsNodup := fun s =>
  inferInstanceAs (Decidable ((s.versions.map pairOf).Nodup))

instance : DecidablePred KeysNodup := fun s =>
  inferInstanceAs (Decidable ((s.keys.map keyId).Nodup))

/-! Concrete fixtures used by witnesses and counterexamples. -/

def infoEx : NewVersionInfo :=
  { algorithm := "m.megolm_backup.v1", auth_data := "authpayload" }

/-- The store reached by two consecutive `createVersion` calls for user `u`. -/
def twoCreates : Store :=
  applyOp (applyOp emptyStore (Op.createV "u" infoEx)) (Op.createV "u" infoEx)

def keyEx : RoomKey :=
  { first_message_index := 0, forwarded_count := 1, is_verified := false,
    session_data := "sessiondata" }

def keyRowEx (room_id session_id : String) : KeyRow :=
  { user_id := "u", version := 1, room_id := room_id, session_id := session_id,
    key := keyEx }

def versionRowEx (version : Int) (deleted : Bool) : VersionRow :=
  { user_id := "u", version := version, algorithm := "m.megolm_backup.v1",
    auth_data := "authpayload", hash := none, deleted := deleted }

/-- A store with one active backup version and three key rows in two rooms. -/
def sQ : Store :=
  { versions := [versionRowEx 1 false]
    keys := [keyRowEx "R1" "S1", keyRowEx "R1" "S2", keyRowEx "R2" "S3"] }

/-- A store whose only version row for `u` is soft-deleted. -/
def sDel : Store := { versions := [versionRowEx 1 true], keys := [] }

/-- A store with two active version rows, 1 and 2. -/
def sTwoV : Store :=
  { versions := [versionRowEx 1 false, versionRowEx 2 false], keys := [] }

/-! Basic lemmas about the SQL `MAX` model. -/

lemma maxOpt_eq_none {l : List Int} : maxOpt l = none ↔ l = [] := by
  cases l with
  | nil => simp [maxOpt]
  | cons v vs =>
    cases hm : maxOpt vs <;> simp [maxOpt, hm]

lemma maxOpt_mem {l : List Int} {m : Int} (h : maxOpt l = some m) : m ∈ l := by
  induction l generalizing m with
  | nil => exact absurd h (by simp [maxOpt])
  | cons v vs ih =>
    rw [maxOpt] at h
    cases hm : maxOpt vs with
    | none =>
      rw [hm] at h
      cases h
      exact List.mem_cons_self v vs
    | some m2 =>
      rw [hm] at h
      cases h
      rcases max_choice v m2 with hc | hc
      · rw [hc]
        exact List.mem_cons_self v vs
      · rw [hc]
        exact List.mem_cons_of_mem v (ih hm)

lemma maxOpt_le {l : List Int} {m : Int} (h : maxOpt l = some m) :
    ∀ v ∈ l, v ≤ m := by
  induction l generalizing m with
  | nil => intro v hv; cases hv
  | cons a vs ih =>
    intro v hv
    rw [maxOpt] at h
    cases hm : maxOpt vs with
    | none =>
      rw [hm] at h
      cases h
      have hvs : vs = [] := maxOpt_eq_none.mp hm
      subst hvs
      rcases List.mem_cons.mp hv with hva | hva
      · exact le_of_eq hva
      · cases hva
    | some m2 =>
      rw [hm] at h
      cases h
      rcases List.mem_cons.mp hv with hva | hva
      · exact hva ▸ le_max_left a m2
      · exact le_trans (ih hm v hva) (le_max_right a m2)

lemma le_curAllL {l : List VersionRow} {u : String} {v : Int}
    (hv : v ∈ userVersionsL l u) : v ≤ curAllL l u := by
  unfold curAllL
  cases hm : maxOpt (userVersionsL l u) with
  | none =>
    rw [maxOpt_eq_none.mp hm] at hv
    cases hv
  | some m => simpa using maxOpt_le hm v hv

lemma curAllL_succ_not_mem (l : List VersionRow) (u : String) :
    curAllL l u + 1 ∉ userVersionsL l u := by
  intro hmem
  have := le_curAllL hmem
  omega

lemma userVersionsL_cons (r : VersionRow) (l : List VersionRow) (u : String) :
    userVersionsL (r :: l) u =
      if r.user_id == u then r.version :: userVersionsL l u
      else userVersionsL l u := by
  cases h : (r.user_id == u) <;> simp [userVersionsL, List.filter_cons, h]

lemma maxOpt_cons_curAllL_succ (l : List VersionRow) (u : String) :
    maxOpt ((curAllL l u + 1) :: userVersionsL l u) = some (curAllL l u + 1) := by
  rw [maxOpt]
  cases hm : maxOpt (userVersionsL l u) with
  | none => rfl
  | some m =>
    have hle : m ≤ curAllL l u := by
      unfold curAllL
      rw [hm]
      exact le_refl m
    show some (max (curAllL l u + 1) m) = some (curAllL l u + 1)
    rw [max_eq_left (by omega)]

/-! Lemmas relating the version table to its `(user_id, version)` projection. -/

lemma userVersionsL_map_pres (l : List VersionRow) (u : String)
    (f : VersionRow → VersionRow)
    (hf : ∀ r, (f r).user_id = r.user_id ∧ (f r).version = r.version) :
    userVersionsL (l.map f) u = userVersionsL l u := by
  induction l with
  | nil => rfl
  | cons r t ih =>
    rw [List.map_cons, userVersionsL_cons, userVersionsL_cons,
      (hf r).1, (hf r).2, ih]

lemma pairs_map_pres (l : List VersionRow) (f : VersionRow → VersionRow)
    (hf : ∀ r, (f r).user_id = r.user_id ∧ (f r).version = r.version) :
    (l.map f).map pairOf = l.map pairOf := by
  induction l with
  | nil => rfl
  | cons r t ih =>
    simp only [List.map_cons, ih, List.cons.injEq, and_true]
    unfold pairOf
    rw [(hf r).1, (hf r).2]

lemma userVersionsL_via_pairs (l : List VersionRow) (u : String) :
    userVersionsL l u =
      ((l.map pairOf).filter fun p => p.1 == u).map fun p => p.2 := by
  induction l with
  | nil => rfl
  | cons r t ih =>
    rw [List.map_cons, userVersionsL_cons]
    cases h : (r.user_id == u) <;>
      simp [pairOf, List.filter_cons, h, ih]

lemma userVersionsL_eq_of_pairs {l l2 : List VersionRow} (u : String)
    (h : l.map pairOf = l2.map pairOf) :
    userVersionsL l u = userVersionsL l2 u := by
  rw [userVersionsL_via_pairs, userVersionsL_via_pairs, h]

/-! Shape lemmas: what a successful transaction does to the store. -/

lemma deleteVersion_ok {s : Store} {u : String} {v : Option String} {s2 : Store}
    (h : delete_e2e_room_keys_version s u v = .ok s2) :
    s2 = { s with versions := s.versions.map fun r =>
      if (versionKeyMatch u (delTarget s u v) r) then { r with deleted := true }
      else r } := by
  unfold delete_e2e_room_keys_version at h
  split at h
  · cases h
  · cases h; rfl
  · cases h

lemma updateVersion_ok {s : Store} {u ver : String} {info : UpdateVersionInfo}
    {s2 : Store} (h : update_e2e_room_keys_version s u ver info = .ok s2) :
    s2 = { s with versions := s.versions.map fun r =>
      if (versionKeyMatch u (strToInt? ver) r) then applyVersionUpdate info r
      else r } := by
  unfold update_e2e_room_keys_version at h
  split at h
  · cases h
  · cases h; rfl

lemma addKeys_ok_versions {s : Store} {u ver : String}
    {entries : List (String × String × RoomKey)} {s2 : Store}
    (h : add_e2e_room_keys s u ver entries = .ok s2) :
    s2.versions = s.versions := by
  unfold add_e2e_room_keys at h
  split at h
  · cases h
  · split at h
    · cases h
      rfl
    · cases h

lemma updateKey_ok_versions {s : Store} {u ver room sess : String} {rk : RoomKey}
    {s2 : Store} (h : update_e2e_room_key s u ver room sess rk = .ok s2) :
    s2.versions = s.versions := by
  unfold update_e2e_room_key at h
  split at h
  · cases h
  · cases h; rfl
  · cases h

lemma deleteKeys_ok_versions {s : Store} {u ver : String}
    {room sess : Option String} {s2 : Store}
    (h : delete_e2e_room_keys s u ver room sess = .ok s2) :
    s2.versions = s.versions := by
  unfold delete_e2e_room_keys at h
  split at h
  · cases h
  · cases h; rfl

lemma versions_pairs_applyOp (s : Store) (op : Op)
    (hop : ∀ u i, op ≠ Op.createV u i) :
    (applyOp s op).versions.map pairOf = s.versions.map pairOf := by
  cases op with
  | createV u i => exact absurd rfl (hop u i)
  | deleteV u v =>
    cases hd : delete_e2e_room_keys_version s u v with
    | error e => simp [applyOp, hd]
    | ok s2 =>
      have hs := deleteVersion_ok hd
      simp only [applyOp, hd]
      rw [hs]
      exact pairs_map_pres _ _ fun r => by
        cases hr : versionKeyMatch u (delTarget s u v) r <;> simp [hr]
  | updateV u v info =>
    cases hu : update_e2e_room_keys_version s u v info with
    | error e => simp [applyOp, hu]
    | ok s2 =>
      have hs := updateVersion_ok hu
      simp only [applyOp, hu]
      rw [hs]
      exact pairs_map_pres _ _ fun r => by
        cases hr : versionKeyMatch u (strToInt? v) r <;>
          simp [hr, applyVersionUpdate]
  | addKeys u v entries =>
    cases ha : add_e2e_room_keys s u v entries with
    | error e => simp [applyOp, ha]
    | ok s2 =>
      simp only [applyOp, ha]
      rw [addKeys_ok_versions ha]
  | updateK u v room sess key =>
    cases hk : update_e2e_room_key s u v room sess key with
    | error e => simp [applyOp, hk]
    | ok s2 =>
      simp only [applyOp, hk]
      rw [updateKey_ok_versions hk]
  | deleteK u v room sess =>
    cases hk : delete_e2e_room_keys s u v room sess with
    | error e => simp [applyOp, hk]
    | ok s2 =>
      simp only [applyOp, hk]
      rw [deleteKeys_ok_versions hk]

lemma curAllL_applyOp_nonCreate (s : Store) (op : Op) (u : String)
    (hop : ∀ u2 i, op ≠ Op.createV u2 i) :
    curAllL (applyOp s op).versions u = curAllL s.versions u := by
  unfold curAllL
  rw [userVersionsL_eq_of_pairs u (versions_pairs_applyOp s op hop)]

/-! The create transaction and traces of operations. -/

lemma create_versions_eq (s : Store) (u2 : String) (i : NewVersionInfo) :
    ((create_e2e_room_keys_version s u2 i).1).versions =
      { user_id := u2, version := curAllL s.versions u2 + 1,
        algorithm := i.algorithm, auth_data := i.auth_data,
        hash := none, deleted := false } :: s.versions := rfl

lemma create_ret (s : Store) (u2 : String) (i : NewVersionInfo) :
    (create_e2e_room_keys_version s u2 i).2 =
      toString (curAllL s.versions u2 + 1) := rfl

lemma curAllL_cons_succ (l : List VersionRow) (u : String) (r : VersionRow)
    (hu : r.user_id = u) (hv : r.version = curAllL l u + 1) :
    curAllL (r :: l) u = curAllL l u + 1 := by
  have h1 : userVersionsL (r :: l) u = (curAllL l u + 1) :: userVersionsL l u := by
    rw [userVersionsL_cons, hu, hv]
    simp
  unfold curAllL
  rw [h1, maxOpt_cons_curAllL_succ]
  rfl

lemma curAllL_cons_ne (l : List VersionRow) (u : String) (r : VersionRow)
    (hu : (r.user_id == u) = false) :
    curAllL (r :: l) u = curAllL l u := by
  unfold curAllL
  rw [userVersionsL_cons, hu]
  simp

lemma version_mem_userVersionsL {l : List VersionRow} {r : VersionRow} {u : String}
    (hr : r ∈ l) (hu : r.user_id = u) : r.version ∈ userVersionsL l u := by
  unfold userVersionsL
  exact List.mem_map_of_mem _ (List.mem_filter.mpr ⟨hr, by simp [hu]⟩)

lemma createOutputs_cons_create (s : Store) (u2 : String) (i : NewVersionInfo)
    (rest : List Op) (u : String) :
    createOutputs s (Op.createV u2 i :: rest) u =
      if u2 == u then
        (create_e2e_room_keys_version s u2 i).2 ::
          createOutputs (applyOp s (Op.createV u2 i)) rest u
      else createOutputs (applyOp s (Op.createV u2 i)) rest u := rfl

lemma createOutputs_cons_other (s : Store) (op : Op) (rest : List Op) (u : String)
    (hop : ∀ u2 i, op ≠ Op.createV u2 i) :
    createOutputs s (op :: rest) u = createOutputs (applyOp s op) rest u := by
  cases op with
  | createV u2 i => exact absurd rfl (hop u2 i)
  | deleteV u2 v => rfl
  | updateV u2 v i2 => rfl
  | addKeys u2 v e => rfl
  | updateK u2 v r2 s2 k2 => rfl
  | deleteK u2 v r2 s2 => rfl

lemma createOutputs_general (ops : List Op) : ∀ (s : Store) (u : String),
    createOutputs s ops u =
      (List.range (countCreates ops u)).map fun (k : Nat) =>
        toString (curAllL s.versions u + (k : Int) + 1) := by
  induction ops with
  | nil => intro s u; rfl
  | cons op rest ih =>
    intro s u
    by_cases hc : ∃ u2 i, op = Op.createV u2 i
    · obtain ⟨u2, i, rfl⟩ := hc
      rw [createOutputs_cons_create]
      cases hu : (u2 == u) with
      | true =>
        have hu2 : u2 = u := by simpa using hu
        subst hu2
        rw [if_pos rfl]
        rw [ih]
        have hca : curAllL (applyOp s (Op.createV u2 i)).versions u2 =
            curAllL s.versions u2 + 1 := by
          show curAllL ((create_e2e_room_keys_version s u2 i).1).versions u2 = _
          rw [create_versions_eq]
          exact curAllL_cons_succ _ _ _ rfl rfl
        rw [hca, create_ret]
        have hcnt : countCreates (Op.createV u2 i :: rest) u2 =
            countCreates rest u2 + 1 := by
          simp [countCreates, List.countP_cons]
        rw [hcnt, List.range_succ_eq_map, List.map_cons, List.map_map]
        congr 1
        · congr 1
          push_cast
          ring
        · apply List.map_congr_left
          intro k hk
          simp only [Function.comp_apply]
          congr 1
          push_cast
          ring
      | false =>
        rw [if_neg (by simp [hu])]
        rw [ih]
        have hca : curAllL (applyOp s (Op.createV u2 i)).versions u =
            curAllL s.versions u := by
          show curAllL ((create_e2e_room_keys_version s u2 i).1).versions u = _
          rw [create_versions_eq]
          exact curAllL_cons_ne _ _ _ hu
        rw [hca]
        have hcnt : countCreates (Op.createV u2 i :: rest) u =
            countCreates rest u := by
          simp [countCreates, List.countP_cons, hu]
        rw [hcnt]
    · have hop : ∀ u2 i, op ≠ Op.createV u2 i := fun u2 i he => hc ⟨u2, i, he⟩
      rw [createOutputs_cons_other s op rest u hop, ih,
        curAllL_applyOp_nonCreate s op u hop]
      have hcnt : countCreates (op :: rest) u = countCreates rest u := by
        cases op with
        | createV u2 i => exact absurd rfl (hop u2 i)
        | deleteV u2 v => simp [countCreates, List.countP_cons]
        | updateV u2 v i2 => simp [countCreates, List.countP_cons]
        | addKeys u2 v e => simp [countCreates, List.countP_cons]
        | updateK u2 v r2 s2 k2 => simp [countCreates, List.countP_cons]
        | deleteK u2 v r2 s2 => simp [countCreates, List.countP_cons]
      rw [hcnt]

/-- C1: `create_e2e_room_keys_version` returns one plus the maximum version
ever assigned to the user (deleted rows included, none assigned read as 0) as
a string, and along any operation sequence from the empty store — deletions
and all other operations interleaved at will — the successive `createV`
results for a user are exactly the strings "1", "2", "3", …, so they are
strictly increasing and no version number is ever returned twice. -/
theorem createVersion_strictly_increasing :
    (∀ (s : Store) (u : String) (info : NewVersionInfo),
        (create_e2e_room_keys_version s u info).2 =
          toString ((maxOpt (userVersionsL s.versions u)).getD 0 + 1)) ∧
    ∀ (ops : List Op) (u : String),
      createOutputs emptyStore ops u =
        (List.range (countCreates ops u)).map fun (k : Nat) =>
          toString ((k : Int) + 1) := by
  constructor
  · intro s u info
    rfl
  · intro ops u
    rw [createOutputs_general]
    apply List.map_congr_left
    intro k hk
    have h0 : curAllL emptyStore.versions u = 0 := rfl
    rw [h0]
    congr 1
    ring

/-- C3, counterexample: the claimed invariant "at most one `backup_versions`
row has `deleted = false`" fails in a reachable state: two consecutive
`createVersion` calls for user "u" leave both version rows (1 and 2)
non-deleted, because `create_e2e_room_keys_version` never clears the
previous current version. -/
theorem atMostOne_nondeleted_refuted :
    Reach twoCreates ∧
      ¬ ((twoCreates.versions.filter fun r =>
            r.user_id == "u" && r.deleted == false).length ≤ 1) :=
  ⟨Reach.step _ _ (Reach.step _ _ Reach.empty), by decide⟩

/-- C3, amended: in every reachable state, for a given user the version
numbers are pairwise distinct (never reused, even after deletion);
`create_e2e_room_keys_version` always inserts (and returns) a version
`curAllL + 1` that differs from every version ever assigned to the user;
and the value `_get_current_version` reads is the maximum version among the
non-deleted rows of the user.  The dropped part of the claim — at most one row
with `deleted = false` — is refuted above. -/
theorem version_numbers_never_reused :
    (∀ s : Store, Reach s → VersionPairsNodup s) ∧
    (∀ (s : Store) (u : String) (r : VersionRow),
        r ∈ s.versions → r.user_id = u →
        r.version ≠ curAllL s.versions u + 1) ∧
    (∀ (s : Store) (u : String) (m : Int),
        _get_current_version s u = some m →
        m ∈ userNonDeletedL s.versions u ∧
          ∀ v ∈ userNonDeletedL s.versions u, v ≤ m) := by
  refine ⟨?_, ?_, ?_⟩
  · intro s hs
    induction hs with
    | empty => simp [VersionPairsNodup, emptyStore]
    | step s2 op hs2 ih =>
      by_cases hc : ∃ u i, op = Op.createV u i
      · obtain ⟨u, i, rfl⟩ := hc
        unfold VersionPairsNodup
        show (((create_e2e_room_keys_version s2 u i).1).versions.map pairOf).Nodup
        rw [create_versions_eq, List.map_cons, List.nodup_cons]
        constructor
        · intro hmem
          obtain ⟨r, hrmem, hpair⟩ := List.mem_map.mp hmem
          have hru : r.user_id = u := congrArg Prod.fst hpair
          have hrv : r.version = curAllL s2.versions u + 1 :=
            congrArg Prod.snd hpair
          exact curAllL_succ_not_mem s2.versions u
            (hrv ▸ version_mem_userVersionsL hrmem hru)
        · exact ih
      · have hop : ∀ u i, op ≠ Op.createV u i := fun u i he => hc ⟨u, i, he⟩
        unfold VersionPairsNodup
        rw [versions_pairs_applyOp s2 op hop]
        exact ih
  · intro s u r hr hu hcontra
    exact curAllL_succ_not_mem s.versions u
      (hcontra ▸ version_mem_userVersionsL hr hu)
  · intro s u m h
    unfold _get_current_version at h
    exact ⟨maxOpt_mem h, maxOpt_le h⟩

/-- Witness for the amended C3 at a concrete reachable store: the state after
two creates has pairwise distinct version numbers, and its current version 2
is the maximum non-deleted version. -/
theorem version_numbers_never_reused_witness :
    VersionPairsNodup twoCreates ∧
      ((2 : Int) ∈ userNonDeletedL twoCreates.versions "u" ∧
        ∀ v ∈ userNonDeletedL twoCreates.versions "u", v ≤ 2) :=
  ⟨version_numbers_never_reused.1 twoCreates
      (Reach.step _ _ (Reach.step _ _ Reach.empty)),
    version_numbers_never_reused.2.2 twoCreates "u" 2 (by decide)⟩

/-- C7: a successful `delete_e2e_room_keys_version` only flips the `deleted`
flag in the versions table; the `e2e_room_keys` table is unchanged, so every
`get_e2e_room_keys` query (any user, version, room, session) returns exactly
what it returned before the deletion. -/
theorem deleteVersion_leaves_keys (s : Store) (u : String) (v : Option String)
    (s2 : Store) (h : delete_e2e_room_keys_version s u v = .ok s2) :
    s2.keys = s.keys ∧
      ∀ (u2 v2 : String) (room sess : Option String),
        get_e2e_room_keys s2 u2 v2 room sess =
          get_e2e_room_keys s u2 v2 room sess := by
  have hk : s2.keys = s.keys := by
    rw [deleteVersion_ok h]
  refine ⟨hk, fun u2 v2 room sess => ?_⟩
  unfold get_e2e_room_keys
  rw [hk]

/-- Witness for C7: deleting the current version of "u" in the two-version
store succeeds and leaves the key table untouched. -/
theorem deleteVersion_leaves_keys_witness :
    ∃ s2 : Store, delete_e2e_room_keys_version sQ "u" (some "1") = .ok s2 ∧
      s2.keys = sQ.keys :=
  ⟨{ sQ with versions := [{ versionRowEx 1 false with deleted := true }] },
    rfl,
    (deleteVersion_leaves_keys sQ "u" (some "1") _ rfl).1⟩

/-- C4: evaluation of `_get_e2e_room_keys_multi_txn` on the example from the spec
selection.  With selection `[R1 - sessions S1 S2, R2 - no sessions]` it
returns exactly the stored R1/S1 and R1/S2 records and nothing for R2, and
with an empty selection it returns the empty mapping without querying; but on
a NON-empty selection whose session sets are all empty the code does issue a
query — whose WHERE clause ends in `AND ()` — so instead of the specified
empty mapping the operation fails with a malformed-SQL error. -/
theorem getKeysMulti_selection_behavior :
    get_e2e_room_keys_multi sQ "u" "1" [("R1", ["S1", "S2"]), ("R2", [])] =
        .ok [keyRowEx "R1" "S1", keyRowEx "R1" "S2"] ∧
      get_e2e_room_keys_multi sQ "u" "1" [] = .ok [] ∧
      get_e2e_room_keys_multi sQ "u" "1" [("R2", [])] =
        .error (.sqlError "malformed WHERE clause: empty OR list") :=
  ⟨rfl, rfl, rfl⟩

/-- C6: evaluation of the four operations at the non-integer version
"notanint" on a store holding keys under version 1.  `get_e2e_room_keys`
returns the empty result without failing, `get_e2e_room_keys_multi` returns
an empty mapping without failing for an empty selection or one with a
non-empty session set, `get_e2e_room_keys_version_info` fails with
NotFound(404), and `delete_e2e_room_keys` fails with `ValueError`; but for a
non-empty selection whose session sets are all empty,
`get_e2e_room_keys_multi` does fail (malformed `AND ()` WHERE clause), so
the claimed "empty result without failing" does not hold on that input. -/
theorem nonInteger_version_asymmetry :
    get_e2e_room_keys sQ "u" "notanint" none none = [] ∧
      get_e2e_room_keys_multi sQ "u" "notanint" [("R1", ["S1"])] = .ok [] ∧
      get_e2e_room_keys_multi sQ "u" "notanint" [] = .ok [] ∧
      get_e2e_room_keys_version_info sQ "u" (some "notanint") =
        .error (.storeError 404 "No row found") ∧
      delete_e2e_room_keys sQ "u" "notanint" none none = .error .valueError ∧
      get_e2e_room_keys_multi sQ "u" "notanint" [("R1", [])] =
        .error (.sqlError "malformed WHERE clause: empty OR list") :=
  ⟨rfl, rfl, rfl, rfl, rfl, rfl⟩

/-! Resolution of the current version. -/

lemma userNonDeletedL_cons (r : VersionRow) (l : List VersionRow) (u : String) :
    userNonDeletedL (r :: l) u =
      if r.user_id == u && r.deleted == false then
        r.version :: userNonDeletedL l u
      else userNonDeletedL l u := by
  cases h : (r.user_id == u && r.deleted == false) with
  | true =>
    obtain ⟨h1, h2⟩ := (Bool.and_eq_true _ _).mp h
    have hu : r.user_id = u := by simpa using h1
    have hd : r.deleted = false := by simpa using h2
    simp [userNonDeletedL, List.filter_cons, hu, hd]
  | false =>
    simp only [userNonDeletedL, List.filter_cons, h]
    simp

lemma userNonDeletedL_map_flip (l : List VersionRow) (u : String)
    (p : VersionRow → Bool) :
    userNonDeletedL
        (l.map fun r => if (p r) then { r with deleted := true } else r) u =
      ((l.filter fun r =>
          (r.user_id == u && r.deleted == false) && !(p r)).map
        fun r => r.version) := by
  induction l with
  | nil => rfl
  | cons r t ih =>
    rw [List.map_cons, List.filter_cons]
    by_cases hp : p r = true
    · rw [if_pos hp]
      rw [userNonDeletedL_cons]
      simp [hp, ih]
    · have hp2 : p r = false := by simpa using hp
      rw [if_neg hp]
      rw [userNonDeletedL_cons]
      cases hcond : (r.user_id == u && r.deleted == false) <;>
        simp [hp2, hcond, ih]

/-- C2: with the version omitted, `get_e2e_room_keys_version_info` fails with
NotFound(404) when the user has no non-deleted version, and otherwise returns
the metadata of a non-deleted row carrying the maximum non-deleted version
number; moreover after a successful `delete_e2e_room_keys_version` of a named
version the current version of the resulting store is the maximum over the
remaining non-deleted rows (the next-highest one), so a subsequent
no-version lookup resolves to it, or to NotFound when none remain. -/
theorem getVersionInfo_resolves_current :
    (∀ (s : Store) (u : String), _get_current_version s u = none →
        get_e2e_room_keys_version_info s u none =
          .error (.storeError 404 "No row found")) ∧
    (∀ (s : Store) (u : String) (m : Int), _get_current_version s u = some m →
        ∃ r ∈ s.versions, r.user_id = u ∧ r.deleted = false ∧ r.version = m ∧
          get_e2e_room_keys_version_info s u none = .ok (mkVersionInfoRes r)) ∧
    (∀ (s : Store) (u vstr : String) (s2 : Store),
        delete_e2e_room_keys_version s u (some vstr) = .ok s2 →
        _get_current_version s2 u =
          maxOpt ((s.versions.filter fun r =>
              (r.user_id == u && r.deleted == false) &&
                !(versionKeyMatch u (strToInt? vstr) r)).map
            fun r => r.version)) := by
  refine ⟨?_, ?_, ?_⟩
  · intro s u h
    show selectVersionRow s u (_get_current_version s u) = _
    rw [h]
    unfold selectVersionRow
    have hnil : (s.versions.filter fun r =>
        r.user_id == u && some r.version == (none : Option Int) &&
          r.deleted == false) = [] := by
      apply List.filter_eq_nil_iff.mpr
      intro r hr
      simp
    rw [hnil]
    rfl
  · intro s u m h
    unfold _get_current_version at h
    have hm := maxOpt_mem h
    unfold userNonDeletedL at hm
    obtain ⟨r, hrf, hrv⟩ := List.mem_map.mp hm
    obtain ⟨hrmem, hcond⟩ := List.mem_filter.mp hrf
    have hru : r.user_id = u := by
      have := (Bool.and_eq_true _ _).mp hcond
      simpa using this.1
    have hrd : r.deleted = false := by
      have := (Bool.and_eq_true _ _).mp hcond
      simpa using this.2
    have hne : s.versions.filter (fun r2 =>
        r2.user_id == u && some r2.version == some m &&
          r2.deleted == false) ≠ [] := by
      intro hnil
      have hin : r ∈ s.versions.filter (fun r2 =>
          r2.user_id == u && some r2.version == some m &&
            r2.deleted == false) :=
        List.mem_filter.mpr ⟨hrmem, by simp [hru, hrd, hrv]⟩
      rw [hnil] at hin
      cases hin
    obtain ⟨r0, t0, heq⟩ := List.exists_cons_of_ne_nil hne
    have hr0mem : r0 ∈ s.versions.filter (fun r2 =>
        r2.user_id == u && some r2.version == some m &&
          r2.deleted == false) := by
      rw [heq]
      exact List.mem_cons_self r0 t0
    obtain ⟨hr0s, hr0c⟩ := List.mem_filter.mp hr0mem
    have h0u : r0.user_id = u := by
      have := (Bool.and_eq_true _ _).mp ((Bool.and_eq_true _ _).mp hr0c).1
      simpa using this.1
    have h0v : r0.version = m := by
      have := (Bool.and_eq_true _ _).mp ((Bool.and_eq_true _ _).mp hr0c).1
      simpa using this.2
    have h0d : r0.deleted = false := by
      have := (Bool.and_eq_true _ _).mp hr0c
      simpa using this.2
    refine ⟨r0, hr0s, h0u, h0d, h0v, ?_⟩
    show selectVersionRow s u (_get_current_version s u) = _
    unfold _get_current_version
    rw [h]
    unfold selectVersionRow
    rw [heq]
    rfl
  · intro s u vstr s2 h
    have hs2 := deleteVersion_ok h
    subst hs2
    unfold _get_current_version
    simp only [delTarget]
    rw [userNonDeletedL_map_flip]

/-- Witness for C2: the empty store has no current version so the lookup
fails with 404, and in the two-active-version store the no-version lookup
returns the metadata of the row holding version 2 (the maximum). -/
theorem getVersionInfo_resolves_current_witness :
    get_e2e_room_keys_version_info emptyStore "u" none =
        .error (.storeError 404 "No row found") ∧
      ∃ r ∈ sTwoV.versions, r.user_id = "u" ∧ r.deleted = false ∧
        r.version = 2 ∧
        get_e2e_room_keys_version_info sTwoV "u" none =
          .ok (mkVersionInfoRes r) :=
  ⟨getVersionInfo_resolves_current.1 emptyStore "u" rfl,
    getVersionInfo_resolves_current.2.1 sTwoV "u" 2 (by decide)⟩

/-! Version-metadata update. -/

/-- C5: `update_e2e_room_keys_version` fails with NotFound when no
`(user, version)` row exists, and on success rewrites only the matching rows,
setting exactly the fields present in the partial `info` (`auth_data` and/or
`hash`) and leaving every other field — and every non-matching row, and the
whole key table — unchanged. -/
theorem updateVersionInfo_partial_update :
    (∀ (s : Store) (u ver : String) (info : UpdateVersionInfo),
        (∀ r ∈ s.versions, ¬(r.user_id = u ∧ some r.version = strToInt? ver)) →
        update_e2e_room_keys_version s u ver info =
          .error (.storeError 404 "No row found")) ∧
    (∀ (s : Store) (u ver : String) (info : UpdateVersionInfo) (s2 : Store),
        update_e2e_room_keys_version s u ver info = .ok s2 →
        s2.keys = s.keys ∧ s2.versions.length = s.versions.length ∧
        ∀ (j : Nat) (hj : j < s.versions.length)
          (hj2 : j < s2.versions.length),
          (¬((s.versions[j]).user_id = u ∧
              some (s.versions[j]).version = strToInt? ver) →
            s2.versions[j] = s.versions[j]) ∧
          ((s.versions[j]).user_id = u →
            some (s.versions[j]).version = strToInt? ver →
            (s2.versions[j]).user_id = (s.versions[j]).user_id ∧
            (s2.versions[j]).version = (s.versions[j]).version ∧
            (s2.versions[j]).algorithm = (s.versions[j]).algorithm ∧
            (s2.versions[j]).deleted = (s.versions[j]).deleted ∧
            (info.auth_data = none →
              (s2.versions[j]).auth_data = (s.versions[j]).auth_data) ∧
            (∀ a, info.auth_data = some a →
              (s2.versions[j]).auth_data = a) ∧
            (info.hash = none →
              (s2.versions[j]).hash = (s.versions[j]).hash) ∧
            (∀ hsh, info.hash = some hsh →
              (s2.versions[j]).hash = some hsh))) := by
  constructor
  · intro s u ver info h
    have hfil : s.versions.filter (versionKeyMatch u (strToInt? ver)) = [] := by
      apply List.filter_eq_nil_iff.mpr
      intro r hr hb
      obtain ⟨h1, h2⟩ := (Bool.and_eq_true _ _).mp hb
      exact h r hr ⟨by simpa using h1, by simpa using h2⟩
    unfold update_e2e_room_keys_version
    rw [hfil]
    rfl
  · intro s u ver info s2 h
    have hsh := updateVersion_ok h
    subst hsh
    refine ⟨rfl, by simp, ?_⟩
    intro j hj hj2
    constructor
    · intro hne
      have hb : versionKeyMatch u (strToInt? ver) (s.versions[j]) = false := by
        cases hbb : versionKeyMatch u (strToInt? ver) (s.versions[j]) with
        | false => rfl
        | true =>
          obtain ⟨h1, h2⟩ := (Bool.and_eq_true _ _).mp hbb
          exact absurd ⟨by simpa using h1, by simpa using h2⟩ hne
      simp [List.getElem_map, hb]
    · intro hu hv
      have hb : versionKeyMatch u (strToInt? ver) (s.versions[j]) = true := by
        simp [versionKeyMatch, hu, hv]
      simp only [List.getElem_map, hb, if_true]
      unfold applyVersionUpdate
      refine ⟨rfl, rfl, rfl, rfl, ?_, ?_, ?_, ?_⟩
      · intro ha
        simp [ha]
      · intro a ha
        simp [ha]
      · intro hh
        simp [hh]
      · intro hsh hh
        simp [hh]

/-- Witness for C5: updating a version that does not exist (empty store)
fails with 404, and updating the existing version 1 of `sQ` succeeds and
leaves the key table unchanged. -/
theorem updateVersionInfo_partial_update_witness :
    update_e2e_room_keys_version emptyStore "u" "1"
        { auth_data := some "newauth", hash := none } =
      .error (.storeError 404 "No row found") ∧
    ∃ s2 : Store, update_e2e_room_keys_version sQ "u" "1"
        { auth_data := some "newauth", hash := none } = .ok s2 ∧
      s2.keys = sQ.keys :=
  ⟨updateVersionInfo_partial_update.1 emptyStore "u" "1" _
      (fun r hr => absurd hr (List.not_mem_nil r)),
    ⟨{ sQ with versions :=
        [{ versionRowEx 1 false with auth_data := "newauth" }] }, rfl,
      (updateVersionInfo_partial_update.2 sQ "u" "1"
        { auth_data := some "newauth", hash := none }
        { sQ with versions :=
          [{ versionRowEx 1 false with auth_data := "newauth" }] } rfl).1⟩⟩

/-- C9: when the row of the user for an explicitly named (integer-parsing) version
exists but is soft-deleted, `get_e2e_room_keys_version_info` fails with
NotFound(404), because its row lookup filters on `deleted = 0`; the
well-formedness hypothesis says version numbers are not duplicated, which
holds in every reachable state. -/
theorem getVersionInfo_soft_deleted_notfound
    (s : Store) (u vstr : String) (n : Int) (r : VersionRow)
    (hwf : VersionPairsNodup s) (hv : strToInt? vstr = some n)
    (hr : r ∈ s.versions) (hru : r.user_id = u) (hrv : r.version = n)
    (hrd : r.deleted = true) :
    get_e2e_room_keys_version_info s u (some vstr) =
      .error (.storeError 404 "No row found") := by
  show (match strToInt? vstr with
    | none => Except.error (PyErr.storeError 404 "No row found")
    | some n2 => selectVersionRow s u (some n2)) = _
  rw [hv]
  show selectVersionRow s u (some n) = _
  unfold selectVersionRow
  have hwf2 : (s.versions.map pairOf).Nodup := hwf
  have hnil : s.versions.filter (fun r2 =>
      r2.user_id == u && some r2.version == some n &&
        r2.deleted == false) = [] := by
    apply List.filter_eq_nil_iff.mpr
    intro r2 hr2 hb
    obtain ⟨hb1, hb2⟩ := (Bool.and_eq_true _ _).mp hb
    obtain ⟨hb11, hb12⟩ := (Bool.and_eq_true _ _).mp hb1
    have h2u : r2.user_id = u := by simpa using hb11
    have h2v : r2.version = n := by simpa using hb12
    have h2d : r2.deleted = false := by simpa using hb2
    have hpair : pairOf r = pairOf r2 := by
      unfold pairOf
      rw [hru, hrv, h2u, h2v]
    have hrr : r = r2 := List.inj_on_of_nodup_map hwf2 hr hr2 hpair
    rw [hrr, h2d] at hrd
    cases hrd
  rw [hnil]
  rfl

/-- Witness for C9: in the store whose only row for "u" is version 1 with
`deleted = true`, naming version "1" explicitly yields NotFound. -/
theorem getVersionInfo_soft_deleted_notfound_witness :
    get_e2e_room_keys_version_info sDel "u" (some "1") =
      .error (.storeError 404 "No row found") :=
  getVersionInfo_soft_deleted_notfound sDel "u" "1" 1 (versionRowEx 1 true)
    (by decide) rfl (by decide) rfl rfl rfl

/-! Hierarchical filtering of `get_e2e_room_keys`. -/

lemma length_le_one_of_const_map {α β : Type} (l : List α) (f : α → β)
    (hn : (l.map f).Nodup) (c : β) (hall : ∀ a ∈ l, f a = c) :
    l.length ≤ 1 := by
  cases l with
  | nil => simp
  | cons a t =>
    cases t with
    | nil => simp
    | cons b t2 =>
      exfalso
      rw [List.map_cons, List.nodup_cons] at hn
      apply hn.1
      have hab : f a = f b := by
        rw [hall a (by simp), hall b (by simp)]
      rw [List.map_cons, hab]
      exact List.mem_cons_self _ _

lemma keyCond_implies_base {u : String} {n : Int} {room sess : Option String}
    {k : KeyRow} (h : keyCond u n room sess k = true) :
    (k.user_id == u && k.version == n) = true :=
  ((Bool.and_eq_true _ _).mp h).1

/-- C8: the hierarchical filter of `get_e2e_room_keys`.  A session filter
without a room filter is ignored (identical result); the room-filtered result
is a subset of the unfiltered one and each of its rows with session S also
appears in the room+session query; with both filters given (non-empty) and a
well-formed key table the result has zero or one rows; with no filter the
query returns every row of the user and version, and with only a room filter
exactly the rows of that room. -/
theorem getKeys_hierarchical_filter :
    (∀ (s : Store) (u v sess : String),
        get_e2e_room_keys s u v none (some sess) =
          get_e2e_room_keys s u v none none) ∧
    (∀ (s : Store) (u v R : String) (k : KeyRow),
        k ∈ get_e2e_room_keys s u v (some R) none →
        k ∈ get_e2e_room_keys s u v none none) ∧
    (∀ (s : Store) (u v R S : String) (k : KeyRow),
        k ∈ get_e2e_room_keys s u v (some R) none → k.session_id = S →
        k ∈ get_e2e_room_keys s u v (some R) (some S)) ∧
    (∀ (s : Store) (u v R S : String), KeysNodup s → R ≠ "" → S ≠ "" →
        (get_e2e_room_keys s u v (some R) (some S)).length ≤ 1) ∧
    (∀ (s : Store) (u v : String) (n : Int), strToInt? v = some n →
        get_e2e_room_keys s u v none none =
          s.keys.filter fun k => k.user_id == u && k.version == n) ∧
    (∀ (s : Store) (u v R : String) (n : Int) (k : KeyRow),
        strToInt? v = some n → R ≠ "" →
        (k ∈ get_e2e_room_keys s u v (some R) none ↔
          k ∈ s.keys ∧ k.user_id = u ∧ k.version = n ∧ k.room_id = R)) := by
  refine ⟨?_, ?_, ?_, ?_, ?_, ?_⟩
  · intro s u v sess
    rfl
  · intro s u v R k hk
    unfold get_e2e_room_keys at hk ⊢
    cases hv : strToInt? v with
    | none =>
      rw [hv] at hk
      exact absurd hk (List.not_mem_nil k)
    | some n =>
      rw [hv] at hk
      show k ∈ s.keys.filter (keyCond u n none none)
      obtain ⟨hmem, hcond⟩ := List.mem_filter.mp hk
      refine List.mem_filter.mpr ⟨hmem, ?_⟩
      have hbase := keyCond_implies_base hcond
      simp only [keyCond, truthyS]
      simp only [keyCond] at hbase
      simp [hbase]
  · intro s u v R S k hk hS
    unfold get_e2e_room_keys at hk ⊢
    cases hv : strToInt? v with
    | none =>
      rw [hv] at hk
      exact absurd hk (List.not_mem_nil k)
    | some n =>
      rw [hv] at hk
      show k ∈ s.keys.filter (keyCond u n (some R) (some S))
      obtain ⟨hmem, hcond⟩ := List.mem_filter.mp hk
      refine List.mem_filter.mpr ⟨hmem, ?_⟩
      by_cases hR : R = ""
      · subst hR
        simpa [keyCond, truthyS] using hcond
      · by_cases hS2 : S = ""
        · subst hS2
          simpa [keyCond, truthyS, hR] using hcond
        · simp [keyCond, truthyS, hR, hS2] at hcond ⊢
          exact ⟨hcond.1, hcond.2, hS⟩
  · intro s u v R S hwf hR hS
    unfold get_e2e_room_keys
    cases hv : strToInt? v with
    | none => simp
    | some n =>
      have hwf2 : (s.keys.map keyId).Nodup := hwf
      apply length_le_one_of_const_map _ keyId
        (List.Nodup.sublist
          (List.Sublist.map keyId (List.filter_sublist s.keys)) hwf2)
        (u, n, R, S)
      intro k hk
      obtain ⟨hmem, hcond⟩ := List.mem_filter.mp hk
      simp [keyCond, truthyS, hR, hS] at hcond
      unfold keyId
      rw [hcond.1.1, hcond.1.2, hcond.2.1, hcond.2.2]
  · intro s u v n hv
    unfold get_e2e_room_keys
    rw [hv]
    apply List.filter_congr
    intro k hk
    simp [keyCond, truthyS]
  · intro s u v R n k hv hR
    unfold get_e2e_room_keys
    rw [hv]
    rw [List.mem_filter]
    constructor
    · rintro ⟨hmem, hcond⟩
      simp [keyCond, truthyS, hR] at hcond
      exact ⟨hmem, hcond.1.1, hcond.1.2, hcond.2⟩
    · rintro ⟨hmem, hu, hn, hrm⟩
      exact ⟨hmem, by simp [keyCond, truthyS, hR, hu, hn, hrm]⟩

/-- Witness for C8 at the three-key store: the R1/S1 row returned by the
room-filtered query is in the unfiltered result, and the fully keyed query
returns at most one row. -/
theorem getKeys_hierarchical_filter_witness :
    keyRowEx "R1" "S1" ∈ get_e2e_room_keys sQ "u" "1" none none ∧
      (get_e2e_room_keys sQ "u" "1" (some "R1") (some "S1")).length ≤ 1 :=
  ⟨getKeys_hierarchical_filter.2.1 sQ "u" "1" "R1" (keyRowEx "R1" "S1")
      (by decide),
    getKeys_hierarchical_filter.2.2.2.1 sQ "u" "1" "R1" "S1" (by decide)
      (by decide) (by decide)⟩
